import Mathlib

/-!
# Verification of the dissonance model and reference-tone scheduler

Shallow embedding of the core of the `physics_of_dissonance` repository:

* `DissonanceMath` embeds `src/lib/dissonance/math.ts` (spectrum builder,
  loudness mapper, roughness kernel, dyad aggregator, triad surface builder,
  note-name helpers).  JavaScript numbers are modelled as real numbers, with
  `Real.exp` / `Real.log` / `Real.rpow` standing for `Math.exp` / `Math.log` /
  `Math.pow`.  Array loops accumulating a sum are modelled as `Finset.range`
  sums; array indexing `xs[i]` is modelled as `List.getD i 0`.
* `DyadicExplorerPage` embeds the inline reimplementation of the same
  computation found in `src/app/visualizations/dyadic-explorer/page.tsx`.
* `TriadExplorerPage` embeds `extractConsonantMinima` from
  `src/app/visualizations/triad-explorer/page.tsx`.
* `ReferenceAudio` embeds the oscillator/synth scheduling logic
  (`ReferenceOsc`, `ReferenceSynth`, `useReferenceTonePlayer`).  All audio
  timing arithmetic in that code is rational, so times, gains and frequencies
  are modelled as `ℚ`, and the calls issued to the audio driver are recorded
  as explicit event traces.
-/

noncomputable section

namespace PhysicsOfDissonance

namespace DissonanceMath

/-- A partial spectrum: index-aligned frequency multipliers and amplitudes
(`type Spectrum` from `src/lib/dissonance/types.ts`). -/
structure Spectrum where
  freq : List ℝ
  amp : List ℝ

/-- `harmonicTonePartials` from `math.ts`: the loop `for k = 1..numPartials`
produces pairs `(frequencyHz, amplitude) = (k * fundamentalHz, k ^ (-rolloff))`.
The `k`-th loop iteration (1-based) is index `k0 = k - 1` of `List.range`. -/
def harmonicTonePartials (fundamentalHz : ℝ) (numPartials : ℕ) (rolloff : ℝ) :
    List (ℝ × ℝ) :=
  (List.range numPartials).map (fun k0 : ℕ =>
    (((k0 : ℝ) + 1) * fundamentalHz, Real.rpow ((k0 : ℝ) + 1) (-rolloff)))

/-- `spectrumFromHarmonics` from `math.ts`: normalizes the partial
frequencies by the fundamental and splits the pairs into parallel arrays. -/
def spectrumFromHarmonics (fundamentalHz : ℝ) (numPartials : ℕ) (rolloff : ℝ) :
    Spectrum :=
  let ps := harmonicTonePartials fundamentalHz numPartials rolloff
  ⟨ps.map (fun p => p.1 / fundamentalHz), ps.map (fun p => p.2)⟩

/-- `ampToLoudness` from `math.ts`: `dB = (20 * Math.log(amp)) / LOG10`,
result `Math.pow(2, dB / 10) / 16`. -/
def ampToLoudness (amp : ℝ) : ℝ :=
  let dB := 20 * Real.log amp / Real.log 10
  Real.rpow 2 (dB / 10) / 16

/-- `dissonanceKernel` from `math.ts`, with its fixed constants
`x = 0.24`, `s1 = 0.0207`, `s2 = 18.96`, `b1 = 3.51`, `b2 = 5.75`. -/
def dissonanceKernel (f1 f2 l1 l2 : ℝ) : ℝ :=
  let x : ℝ := 0.24
  let s1 : ℝ := 0.0207
  let s2 : ℝ := 18.96
  let fmin := min f1 f2
  let fmax := max f1 f2
  let s := x / (s1 * fmin + s2)
  let p := s * (fmax - fmin)
  let b1 : ℝ := 3.51
  let b2 : ℝ := 5.75
  let l12 := min l1 l2
  l12 * (Real.exp (-b1 * p) - Real.exp (-b2 * p))

/-- `dyadicDissonance` from `math.ts`: the double loop over ordered partial
index pairs `(i, j)` accumulating the three weighted kernel terms, then
dividing the total by 2. -/
def dyadicDissonance (baseFreq r : ℝ) (sp : Spectrum) : ℝ :=
  let loudnessArray := sp.amp.map ampToLoudness
  let numPartials := sp.freq.length
  (∑ i ∈ Finset.range numPartials, ∑ j ∈ Finset.range numPartials,
    (let f1 := baseFreq * sp.freq.getD i 0
     let f2 := baseFreq * sp.freq.getD j 0
     let l1 := loudnessArray.getD i 0
     let l2 := loudnessArray.getD j 0
     0.5 * dissonanceKernel f1 f2 l1 l2 +
       0.5 * dissonanceKernel (r * f1) (r * f2) l1 l2 +
       dissonanceKernel f1 (r * f2) l1 l2)) / 2

/-- The loudness expression exactly as the claim about the dyad aggregator
words it: `L = 2 ^ (20 * log10 a / 10) / 16`. -/
def loudnessOfAmp (a : ℝ) : ℝ :=
  Real.rpow 2 (20 * Real.logb 10 a / 10) / 16

/-- The dyad aggregator exactly as the claim words it: `(1/2)` times the sum
over all ordered index pairs `(i, j)` of the three weighted kernel terms,
with loudness weights `Li = 2 ^ (20 * log10 ai / 10) / 16`. -/
def dyadicDissonanceClaim (f0 r : ℝ) (ω a : List ℝ) : ℝ :=
  (1 / 2) * ∑ i ∈ Finset.range ω.length, ∑ j ∈ Finset.range ω.length,
    (0.5 * dissonanceKernel (f0 * ω.getD i 0) (f0 * ω.getD j 0)
        (loudnessOfAmp (a.getD i 0)) (loudnessOfAmp (a.getD j 0)) +
     0.5 * dissonanceKernel (r * f0 * ω.getD i 0) (r * f0 * ω.getD j 0)
        (loudnessOfAmp (a.getD i 0)) (loudnessOfAmp (a.getD j 0)) +
     dissonanceKernel (f0 * ω.getD i 0) (r * f0 * ω.getD j 0)
        (loudnessOfAmp (a.getD i 0)) (loudnessOfAmp (a.getD j 0)))

/-- `Number(r.toFixed(6))` from `computeTriadSurface`: round to six decimal
places.  We use round-half-up; the source's decimal tie convention differs
only on exact half-microunit ties, which no claim depends on. -/
def roundTo6 (x : ℝ) : ℝ := (round (x * 1000000) : ℤ) / 1000000

/-- The ratio-axis loop of `computeTriadSurface`:
`for (let r = minRatio; r <= maxRatio + 1e-9; r += step) push(r.toFixed(6))`.
In exact real arithmetic the accumulator after `k` additions is
`minRatio + k * step`, so (for `step > 0`, without which the source loop
would not terminate) the loop body runs exactly for
`k = 0 .. ⌊(maxRatio + 1e-9 - minRatio) / step⌋` when the bound admits `k = 0`
at all, and never otherwise. -/
def triadRatios (lo hi step : ℝ) : List ℝ :=
  if lo ≤ hi + 1 / 1000000000 then
    (List.range (⌊(hi + 1 / 1000000000 - lo) / step⌋₊ + 1)).map
      (fun k : ℕ => roundTo6 (lo + (k : ℝ) * step))
  else []

/-- The per-cell double loop of `computeTriadSurface`: for grid ratios
`(r, s)`, sum the six kernel terms over all ordered partial pairs `(i, j)`,
then divide by 2 (`dissonanceSum /= 2`). -/
def triadCellScore (baseFreq : ℝ) (sp : Spectrum) (r s : ℝ) : ℝ :=
  let loudnessArray := sp.amp.map ampToLoudness
  let numPartials := sp.freq.length
  (∑ i ∈ Finset.range numPartials, ∑ j ∈ Finset.range numPartials,
    (let f1 := baseFreq * sp.freq.getD i 0
     let f2 := baseFreq * sp.freq.getD j 0
     let l1 := loudnessArray.getD i 0
     let l2 := loudnessArray.getD j 0
     dissonanceKernel f1 f2 l1 l2 +
       dissonanceKernel (r * f1) (r * f2) l1 l2 +
       dissonanceKernel f1 (r * f2) l1 l2 +
       dissonanceKernel (s * f1) (s * f2) l1 l2 +
       dissonanceKernel f1 (s * f2) l1 l2 +
       dissonanceKernel (r * f1) (s * f2) l1 l2)) / 2

/-- The raw (pre-normalization) score grid of `computeTriadSurface`,
row-major: `data[i][j]` is the cell at `(ratios[i], ratios[j])`. -/
def triadRawGrid (baseFreq : ℝ) (sp : Spectrum) (rs : List ℝ) :
    List (List ℝ) :=
  rs.map (fun r => rs.map (fun s => triadCellScore baseFreq sp r s))

/-- The running maximum of `computeTriadSurface`:
`maxScore` starts at `Number.NEGATIVE_INFINITY` (modelled by `none`) and is
raised by each cell, so it ends as the maximum of the flattened grid. -/
def runningMax (l : List ℝ) : Option ℝ :=
  l.foldl (fun acc v =>
    match acc with
    | none => some v
    | some m => some (max m v)) none

/-- The per-cell normalization step of `computeTriadSurface`:
`maxScore > 0 ? value / maxScore : 0`, with `none` standing for the untouched
`NEGATIVE_INFINITY` (for which `maxScore > 0` is false). -/
def normalizeCell (maxScore : Option ℝ) (v : ℝ) : ℝ :=
  match maxScore with
  | none => 0
  | some m => if 0 < m then v / m else 0

/-- Result record of `computeTriadSurface`. -/
structure TriadSurface where
  ratios : List ℝ
  values : List (List ℝ)

/-- `computeTriadSurface` from `math.ts`: build the ratio axis, compute the
raw grid and its running maximum, then normalize every cell by the maximum
when it is positive and output 0 everywhere otherwise (a `none` maximum is
the untouched `NEGATIVE_INFINITY`, for which `maxScore > 0` is false). -/
def computeTriadSurface (baseFreq : ℝ) (sp : Spectrum) (lo hi step : ℝ) :
    TriadSurface :=
  let rs := triadRatios lo hi step
  let grid := triadRawGrid baseFreq sp rs
  let maxScore := runningMax grid.flatten
  let vals := grid.map (fun row => row.map (normalizeCell maxScore))
  ⟨rs, vals⟩

/-- `NOTE_NAMES` from `math.ts` (sharps written as an appended `#`). -/
def NOTE_NAMES : List String :=
  ["C", "C" ++ "#", "D", "D" ++ "#", "E",
   "F", "F" ++ "#", "G", "G" ++ "#", "A", "A" ++ "#", "B"]

/-- Out-of-range default for `NOTE_NAMES` indexing (never used: the computed
index is proved to be in range). -/
def blankNote : String := ""

/-- The note index `((rounded % 12) + 12) % 12` computed by `midiToNoteName`.
JavaScript `%` is truncating remainder, i.e. `Int.tmod`. -/
def noteIndex (midi : ℝ) : ℤ :=
  (((round midi).tmod 12) + 12).tmod 12

/-- `midiToNoteName` from `math.ts`: `Math.round` is round-half-up (`round`),
`Math.floor(rounded / 12)` on integers is flooring division (`Int.fdiv`). -/
def midiToNoteName (midi : ℝ) : String :=
  let rounded := round midi
  let octave := Int.fdiv rounded 12 - 1
  NOTE_NAMES.getD (((rounded.tmod 12) + 12).tmod 12).toNat blankNote
    ++ toString octave

end DissonanceMath

namespace DyadicExplorerPage

/-- The inline copy of `harmonicTonePartials` in
`dyadic-explorer/page.tsx` (identical loop to the library version). -/
def harmonicTonePartials (fundamentalHz : ℝ) (numPartials : ℕ) (rolloff : ℝ) :
    List (ℝ × ℝ) :=
  (List.range numPartials).map (fun k0 : ℕ =>
    (((k0 : ℝ) + 1) * fundamentalHz, Real.rpow ((k0 : ℝ) + 1) (-rolloff)))

/-- The inline copy of `ampToLoudness` in `dyadic-explorer/page.tsx`. -/
def ampToLoudness (amp : ℝ) : ℝ :=
  let dB := 20 * Real.log amp / Real.log 10
  Real.rpow 2 (dB / 10) / 16

/-- The inline kernel (`function dissonance`) in `dyadic-explorer/page.tsx`,
with the same constants as the library kernel. -/
def dissonance (f1 f2 l1 l2 : ℝ) : ℝ :=
  let x : ℝ := 0.24
  let s1 : ℝ := 0.0207
  let s2 : ℝ := 18.96
  let fmin := min f1 f2
  let fmax := max f1 f2
  let s := x / (s1 * fmin + s2)
  let p := s * (fmax - fmin)
  let b1 : ℝ := 3.51
  let b2 : ℝ := 5.75
  let l12 := min l1 l2
  l12 * (Real.exp (-b1 * p) - Real.exp (-b2 * p))

/-- The inline `dyadicDissonance` in `dyadic-explorer/page.tsx`: builds the
partial list itself, normalizes frequencies to the fundamental, and runs the
same ordered-pair double loop with the same weights, dividing by 2. -/
def dyadicDissonance (f0 r : ℝ) (numPartials : ℕ) (rolloff : ℝ) : ℝ :=
  let spectrum := harmonicTonePartials f0 numPartials rolloff
  let freqArray := spectrum.map (fun p => p.1 / f0)
  let ampArray := spectrum.map (fun p => p.2)
  let loudnessArray := ampArray.map ampToLoudness
  let numPartialsActual := freqArray.length
  (∑ i ∈ Finset.range numPartialsActual, ∑ j ∈ Finset.range numPartialsActual,
    (let f1 := f0 * freqArray.getD i 0
     let f2 := f0 * freqArray.getD j 0
     let l1 := loudnessArray.getD i 0
     let l2 := loudnessArray.getD j 0
     0.5 * dissonance f1 f2 l1 l2 +
       0.5 * dissonance (r * f1) (r * f2) l1 l2 +
       dissonance f1 (r * f2) l1 l2)) / 2

end DyadicExplorerPage

namespace TriadExplorerPage

open DissonanceMath

/-- `TriadMinimum` from `triad-explorer/page.tsx`. -/
structure TriadMinimum where
  ratioX : ℝ
  ratioY : ℝ
  value : ℝ

/-- The eight neighbor offsets `(di, dj) ≠ (0, 0)` of the inner double loop
of `extractConsonantMinima`, shifted by `+1` so they can be applied to
natural-number indices `i, j ≥ 1` as `(i - 1 + a, j - 1 + b)`. -/
def neighborOffsets : List (ℕ × ℕ) :=
  [(0, 0), (0, 1), (0, 2), (1, 0), (1, 2), (2, 0), (2, 1), (2, 2)]

/-- Cell access `surface.values[i][j]` (out-of-range access defaults to 0;
all uses below stay in range for rectangular surfaces). -/
def cellValue (surface : TriadSurface) (i j : ℕ) : ℝ :=
  (surface.values.getD i []).getD j 0

/-- The `isMinimum` neighbor scan of `extractConsonantMinima`: the cell is
kept unless some of its 8 neighbors is strictly lower. -/
def isMinimumAt (surface : TriadSurface) (i j : ℕ) : Bool :=
  neighborOffsets.all (fun q =>
    !(decide (cellValue surface (i - 1 + q.1) (j - 1 + q.2) < cellValue surface i j)))

/-- The nested interior loops of `extractConsonantMinima`
(`for i = 1; i < rows - 1` / `for j = 1; j < cols - 1`), in row-major order:
a cell is pushed when it passes the threshold test (`current > threshold`
skips the cell) and the neighbor scan. -/
def interiorMinimaList (surface : TriadSurface) (threshold : ℝ) :
    List TriadMinimum :=
  let rows := surface.values.length
  let cols := (surface.values.getD 0 []).length
  (List.range' 1 (rows - 2)).flatMap (fun i =>
    (List.range' 1 (cols - 2)).filterMap (fun j =>
      let current := cellValue surface i j
      if current > threshold then none
      else if isMinimumAt surface i j then
        some ⟨surface.ratios.getD i 0, surface.ratios.getD j 0, current⟩
      else none))

/-- `extractConsonantMinima` from `triad-explorer/page.tsx`: collect interior
local minima at or below the threshold, sort ascending by value
(`.sort((a, b) => a.value - b.value)`), and truncate (`.slice(0, limit)`). -/
def extractConsonantMinima (surface : TriadSurface) (threshold : ℝ)
    (limit : ℕ) : List TriadMinimum :=
  ((interiorMinimaList surface threshold).mergeSort
    (fun a b => decide (a.value ≤ b.value))).take limit

/-- The claim's qualification predicate for a grid cell `(i, j)`: interior,
value at or below the threshold, and no strictly lower value among the 8
neighbors. -/
def QualifiesAsMinimum (surface : TriadSurface) (threshold : ℝ)
    (i j : ℕ) : Prop :=
  0 < i ∧ i + 1 < surface.values.length ∧
  0 < j ∧ j + 1 < (surface.values.getD 0 []).length ∧
  cellValue surface i j ≤ threshold ∧
  ∀ q ∈ neighborOffsets,
    ¬(cellValue surface (i - 1 + q.1) (j - 1 + q.2) < cellValue surface i j)

/-- A small concrete 3×3 surface (used to exercise the minima extractor on a
concrete input): the center cell is the unique interior local minimum. -/
def sampleSurface : TriadSurface :=
  ⟨[10, 20, 30], [[1, 1, 1], [1, 0, 1], [1, 1, 1]]⟩

end TriadExplorerPage

namespace ReferenceAudio

/-- A concrete channel name (as used by the explorer pages). -/
def audioChannel : String := "dissonance-audio"

/-- A concrete source tag. -/
def audioTag : String := "dyadic-explorer"

/-- Constants from the top of `useReferenceTonePlayer`'s audio module. -/
def MIN_GAIN : ℚ := 1 / 1000000

/-- `BASE_FADE_IN = 0.002`. -/
def BASE_FADE_IN : ℚ := 1 / 500

/-- `BASE_RELEASE = 6.91 * 0.5`. -/
def BASE_RELEASE : ℚ := 6.91 * 0.5

/-- `RELEASE_STAGGER = 6.91 * 0.05`. -/
def RELEASE_STAGGER : ℚ := 6.91 * 0.05

/-- `QUICK_RELEASE = 0.12`. -/
def QUICK_RELEASE : ℚ := 0.12

/-- `QUICK_STAGGER = 0.03`. -/
def QUICK_STAGGER : ℚ := 0.03

/-- The stop-commitment epsilon `1e-6` used by `ReferenceOsc.stop`. -/
def STOP_EPS : ℚ := 1 / 1000000

/-- The stop-scheduling state of a `ReferenceOsc`: `scheduledStop` is `null`
(`none`) until a stop time has been committed. -/
structure OscState where
  scheduledStop : Option ℚ
  deriving DecidableEq, Repr

/-- `ReferenceOsc.stop(time)`:
if a stop is committed and `time >= scheduledStop - 1e-6`, return without
touching anything; otherwise call `osc.stop(time)` on the driver and commit
`scheduledStop = time`.  The boolean records whether the driver call was
issued. -/
def oscStop (st : OscState) (time : ℚ) : OscState × Bool :=
  match st.scheduledStop with
  | some committed =>
    if committed - STOP_EPS ≤ time then (st, false)
    else ({ scheduledStop := some time }, true)
  | none => ({ scheduledStop := some time }, true)

/-- One driver call issued by a `ReferenceOsc` during `ReferenceSynth.play`,
tagged with the oscillator (= partial) index. -/
inductive SynthEvent
  | setFrequencyAtTime (idx : ℕ) (frequency time : ℚ)
  | startOsc (idx : ℕ) (time : ℚ)
  | fadeIn (idx : ℕ) (amplitude target : ℚ)
  | scheduleFadeOut (idx : ℕ) (target : ℚ)
  | stopOsc (idx : ℕ) (time : ℚ)
  deriving DecidableEq, Repr

/-- `ReferenceSynth.play(baseFrequency, startTime)` as the ordered trace of
driver calls it issues, paired with its return value.  With an empty
partial-multiplier list it returns `startTime` immediately and issues no
calls; otherwise each oscillator `idx` gets its frequency set, is started,
fades in by `startTime + BASE_FADE_IN`, has its release scheduled at
`max(startTime, startTime + BASE_RELEASE - RELEASE_STAGGER * idx)` and its
hard stop at `startTime + BASE_RELEASE`, and the method returns
`startTime + BASE_RELEASE`. -/
def synthPlay (pm pa : List ℚ) (baseFrequency startTime : ℚ) :
    ℚ × List SynthEvent :=
  if pm.length = 0 then (startTime, [])
  else
    (startTime + BASE_RELEASE,
      (List.range pm.length).flatMap (fun idx =>
        [SynthEvent.setFrequencyAtTime idx (baseFrequency * pm.getD idx 0) startTime,
         SynthEvent.startOsc idx startTime,
         SynthEvent.fadeIn idx (pa.getD idx 0) (startTime + BASE_FADE_IN),
         SynthEvent.scheduleFadeOut idx
           (max startTime (startTime + BASE_RELEASE - RELEASE_STAGGER * idx)),
         SynthEvent.stopOsc idx (startTime + BASE_RELEASE)]))

/-- One observable action of `useReferenceTonePlayer` during `playChord` /
`stopAll`.  Previously active synths are identified by an id drawn from the
scheduler's active list; newly constructed synths by their index in the
tuning list.  (The `clearTimeout`/`setTimeout` cleanup bookkeeping around
each action is elided: no claim mentions it.) -/
inductive SchedulerEvent
  | broadcastStopOthers (channel source : String)
  | forceSilenceSynth (synthId : ℕ) (now : ℚ)
  | connectSynth (k : ℕ)
  | startSynth (k : ℕ) (frequency startTime : ℚ)
  | scheduleCleanup (k : ℕ)
  deriving DecidableEq, Repr

/-- `stopAll` from `useReferenceTonePlayer`: reads `now = ctx.currentTime`
once and force-silences every currently active synth at that time. -/
def stopAllTrace (now : ℚ) (active : List ℕ) : List SchedulerEvent :=
  active.map (fun v => SchedulerEvent.forceSilenceSynth v now)

/-- `playChord` from `useReferenceTonePlayer` as an ordered event trace.
`clock n` is the value of `ctx.currentTime` at its `n`-th read during the
call: read 0 happens inside `stopAll`, read 1 is the captured `startTime`.
The code broadcasts first, returns after the broadcast when the partial list
is empty, and otherwise runs `stopAll()` and then, for each tuning entry in
order, constructs and connects a synth, plays it at frequency
`baseFrequency * multiplier` and the one captured `startTime`, and schedules
its cleanup. -/
def playChordTrace (clock : ℕ → ℚ) (active : List ℕ) (baseFrequency : ℚ)
    (partialMultipliers : List ℚ) (tuning : List ℚ)
    (channel source : String) : List SchedulerEvent :=
  SchedulerEvent.broadcastStopOthers channel source ::
    (if partialMultipliers.length = 0 then []
     else
       stopAllTrace (clock 0) active ++
         (let startTime := clock 1
          (List.range tuning.length).flatMap (fun k =>
            [SchedulerEvent.connectSynth k,
             SchedulerEvent.startSynth k (baseFrequency * tuning.getD k 0) startTime,
             SchedulerEvent.scheduleCleanup k])))

end ReferenceAudio

/-! ## Helper lemmas -/

open DissonanceMath

/-- Reading index `i < l.length` of a mapped list through `getD`. -/
theorem getD_map_lt (f : ℝ → ℝ) (l : List ℝ) (i : ℕ) (h : i < l.length) :
    (l.map f).getD i 0 = f (l.getD i 0) := by
  rw [List.getD_eq_getElem?_getD, List.getD_eq_getElem?_getD, List.getElem?_map,
    List.getElem?_eq_getElem h]
  simp

/-- Reading index `k < n` of a mapped range through `getD`. -/
theorem getD_map_range (f : ℕ → ℝ) (n k : ℕ) (h : k < n) :
    ((List.range n).map f).getD k 0 = f k := by
  rw [List.getD_eq_getElem?_getD, List.getElem?_map, List.getElem?_range h]
  simp

/-- Truncating remainder of a negated dividend. -/
theorem neg_tmod_twelve (a : ℤ) : (-a).tmod 12 = -(a.tmod 12) := by
  rw [Int.tmod_def, Int.tmod_def, Int.neg_tdiv]; ring

/-- `Int.tmod 12` is strictly greater than `-12`. -/
theorem tmod_twelve_lower (r : ℤ) : -12 < r.tmod 12 := by
  rcases le_or_lt 0 r with h | h
  · exact lt_of_lt_of_le (by norm_num) (Int.tmod_nonneg 12 h)
  · have h1 : r = -(-r) := by ring
    rw [h1, neg_tmod_twelve]
    have h2 : (-r).tmod 12 < 12 := Int.tmod_lt_of_pos (-r) (by norm_num)
    omega

/-- `dissonanceKernel` with its `let` bindings substituted. -/
theorem dissonanceKernel_eq (f1 f2 l1 l2 : ℝ) :
    dissonanceKernel f1 f2 l1 l2 =
      min l1 l2 *
        (Real.exp (-3.51 *
            (0.24 / (0.0207 * min f1 f2 + 18.96) * (max f1 f2 - min f1 f2))) -
         Real.exp (-5.75 *
            (0.24 / (0.0207 * min f1 f2 + 18.96) * (max f1 f2 - min f1 f2)))) :=
  rfl

/-- Unison cancels: at equal frequencies the kernel is exactly 0. -/
theorem dissonanceKernel_self (f l1 l2 : ℝ) :
    dissonanceKernel f f l1 l2 = 0 := by
  rw [dissonanceKernel_eq]
  simp

/-- The kernel is non-negative whenever both frequencies are non-negative
(so the denominator `s1 * fmin + s2` is positive, hence `p ≥ 0`, and
`b1 = 3.51 < b2 = 5.75` gives `exp(-b1 p) ≥ exp(-b2 p)`) and both loudness
weights are non-negative. -/
theorem dissonanceKernel_nonneg (f1 f2 l1 l2 : ℝ) (hf1 : 0 ≤ f1)
    (hf2 : 0 ≤ f2) (hl1 : 0 ≤ l1) (hl2 : 0 ≤ l2) :
    0 ≤ dissonanceKernel f1 f2 l1 l2 := by
  rw [dissonanceKernel_eq]
  have hfmin : 0 ≤ min f1 f2 := le_min hf1 hf2
  have hden : (0 : ℝ) < 0.0207 * min f1 f2 + 18.96 := by nlinarith
  have hp : 0 ≤ 0.24 / (0.0207 * min f1 f2 + 18.96) * (max f1 f2 - min f1 f2) :=
    mul_nonneg (le_of_lt (div_pos (by norm_num) hden))
      (sub_nonneg.mpr (min_le_max))
  have hexp : Real.exp (-5.75 *
        (0.24 / (0.0207 * min f1 f2 + 18.96) * (max f1 f2 - min f1 f2))) ≤
      Real.exp (-3.51 *
        (0.24 / (0.0207 * min f1 f2 + 18.96) * (max f1 f2 - min f1 f2))) :=
    Real.exp_le_exp.mpr (by nlinarith)
  exact mul_nonneg (le_min hl1 hl2) (sub_nonneg.mpr hexp)

/-- The kernel is strictly positive at distinct frequencies when the
denominator `s1 * fmin + s2` is positive and the loudness floor is. -/
theorem dissonanceKernel_pos (f1 f2 l1 l2 : ℝ) (hne : min f1 f2 < max f1 f2)
    (hden : (0 : ℝ) < 0.0207 * min f1 f2 + 18.96) (hl : 0 < min l1 l2) :
    0 < dissonanceKernel f1 f2 l1 l2 := by
  rw [dissonanceKernel_eq]
  have hp : 0 < 0.24 / (0.0207 * min f1 f2 + 18.96) * (max f1 f2 - min f1 f2) :=
    mul_pos (div_pos (by norm_num) hden) (sub_pos.mpr hne)
  have hexp : Real.exp (-5.75 *
        (0.24 / (0.0207 * min f1 f2 + 18.96) * (max f1 f2 - min f1 f2))) <
      Real.exp (-3.51 *
        (0.24 / (0.0207 * min f1 f2 + 18.96) * (max f1 f2 - min f1 f2))) :=
    Real.exp_lt_exp.mpr (by nlinarith)
  exact mul_pos hl (sub_pos.mpr hexp)

/-- The kernel is strictly negative at distinct frequencies when the
denominator `s1 * fmin + s2` is negative (deeply negative `fmin`). -/
theorem dissonanceKernel_neg (f1 f2 l1 l2 : ℝ) (hne : min f1 f2 < max f1 f2)
    (hden : 0.0207 * min f1 f2 + 18.96 < (0 : ℝ)) (hl : 0 < min l1 l2) :
    dissonanceKernel f1 f2 l1 l2 < 0 := by
  rw [dissonanceKernel_eq]
  have hp : 0.24 / (0.0207 * min f1 f2 + 18.96) * (max f1 f2 - min f1 f2) < 0 :=
    mul_neg_of_neg_of_pos (div_neg_of_pos_of_neg (by norm_num) hden)
      (sub_pos.mpr hne)
  have hexp : Real.exp (-3.51 *
        (0.24 / (0.0207 * min f1 f2 + 18.96) * (max f1 f2 - min f1 f2))) <
      Real.exp (-5.75 *
        (0.24 / (0.0207 * min f1 f2 + 18.96) * (max f1 f2 - min f1 f2))) :=
    Real.exp_lt_exp.mpr (by nlinarith)
  exact mul_neg_of_pos_of_neg hl (sub_neg.mpr hexp)

/-- The loudness mapping is strictly positive (a power of 2 over 16). -/
theorem ampToLoudness_pos (a : ℝ) : 0 < ampToLoudness a := by
  show 0 < Real.rpow 2 (20 * Real.log a / Real.log 10 / 10) / 16
  exact div_pos (Real.rpow_pos_of_pos (by norm_num) _) (by norm_num)

/-- Any entry of a loudness array read through `getD` is non-negative
(in-range entries are positive, the out-of-range default is 0). -/
theorem loudness_getD_nonneg (l : List ℝ) (i : ℕ) :
    0 ≤ (l.map ampToLoudness).getD i 0 := by
  rcases lt_or_ge i l.length with h | h
  · rw [getD_map_lt _ _ _ h]
    exact le_of_lt (ampToLoudness_pos _)
  · rw [List.getD_eq_default _ _ (by simpa using h)]

/-- In-range `getD` entries of a list of positives are positive. -/
theorem getD_pos_of_forall_pos (l : List ℝ) (i : ℕ) (hi : i < l.length)
    (h : ∀ w ∈ l, 0 < w) : 0 < l.getD i 0 := by
  rw [List.getD_eq_getElem l 0 hi]
  exact h _ (List.getElem_mem hi)

/-- `dyadicDissonance` with its `let` bindings substituted. -/
theorem dyadicDissonance_eq (f0 r : ℝ) (sp : Spectrum) :
    dyadicDissonance f0 r sp =
      (∑ i ∈ Finset.range sp.freq.length, ∑ j ∈ Finset.range sp.freq.length,
        (0.5 * dissonanceKernel (f0 * sp.freq.getD i 0) (f0 * sp.freq.getD j 0)
            ((sp.amp.map ampToLoudness).getD i 0)
            ((sp.amp.map ampToLoudness).getD j 0) +
         0.5 * dissonanceKernel (r * (f0 * sp.freq.getD i 0))
            (r * (f0 * sp.freq.getD j 0))
            ((sp.amp.map ampToLoudness).getD i 0)
            ((sp.amp.map ampToLoudness).getD j 0) +
         dissonanceKernel (f0 * sp.freq.getD i 0) (r * (f0 * sp.freq.getD j 0))
            ((sp.amp.map ampToLoudness).getD i 0)
            ((sp.amp.map ampToLoudness).getD j 0))) / 2 :=
  rfl

/-! ## Claim C3 — the dyad aggregator computes the claimed formula -/

/-- Claim C3: for every base frequency, ratio, and spectrum given as
equal-length multiplier and amplitude arrays, `dyadicDissonance` returns
exactly `(1/2)` times the sum over all ordered index pairs `(i, j)` of
`0.5·kernel(f0ωi, f0ωj) + 0.5·kernel(r f0 ωi, r f0 ωj) + kernel(f0 ωi, r f0 ωj)`
with loudness weights `Li = 2 ^ (20·log10(ai)/10) / 16`. -/
theorem dyad_matches_claim_formula (f0 r : ℝ) (ω a : List ℝ)
    (hlen : ω.length = a.length) :
    dyadicDissonance f0 r ⟨ω, a⟩ = dyadicDissonanceClaim f0 r ω a := by
  have hL : ∀ x : ℝ, ampToLoudness x = loudnessOfAmp x := by
    intro x
    show Real.rpow 2 (20 * Real.log x / Real.log 10 / 10) / 16 =
      Real.rpow 2 (20 * Real.logb 10 x / 10) / 16
    rw [← Real.log_div_log]
    have harg : 20 * (Real.log x / Real.log 10) / 10 =
        20 * Real.log x / Real.log 10 / 10 := by ring
    rw [harg]
  rw [dyadicDissonance_eq, dyadicDissonanceClaim]
  have hsum : ∀ i ∈ Finset.range ω.length, ∀ j ∈ Finset.range ω.length,
      (0.5 * dissonanceKernel (f0 * ω.getD i 0) (f0 * ω.getD j 0)
          ((a.map ampToLoudness).getD i 0) ((a.map ampToLoudness).getD j 0) +
       0.5 * dissonanceKernel (r * (f0 * ω.getD i 0)) (r * (f0 * ω.getD j 0))
          ((a.map ampToLoudness).getD i 0) ((a.map ampToLoudness).getD j 0) +
       dissonanceKernel (f0 * ω.getD i 0) (r * (f0 * ω.getD j 0))
          ((a.map ampToLoudness).getD i 0) ((a.map ampToLoudness).getD j 0)) =
      (0.5 * dissonanceKernel (f0 * ω.getD i 0) (f0 * ω.getD j 0)
          (loudnessOfAmp (a.getD i 0)) (loudnessOfAmp (a.getD j 0)) +
       0.5 * dissonanceKernel (r * f0 * ω.getD i 0) (r * f0 * ω.getD j 0)
          (loudnessOfAmp (a.getD i 0)) (loudnessOfAmp (a.getD j 0)) +
       dissonanceKernel (f0 * ω.getD i 0) (r * f0 * ω.getD j 0)
          (loudnessOfAmp (a.getD i 0)) (loudnessOfAmp (a.getD j 0))) := by
    intro i hi j hj
    have hi' : i < a.length := hlen ▸ Finset.mem_range.mp hi
    have hj' : j < a.length := hlen ▸ Finset.mem_range.mp hj
    rw [getD_map_lt _ _ _ hi', getD_map_lt _ _ _ hj', hL, hL]
    simp only [mul_assoc]
  rw [Finset.sum_congr rfl (fun i hi => Finset.sum_congr rfl (hsum i hi))]
  ring

/-- Witness for `dyad_matches_claim_formula` on the one-partial spectrum. -/
theorem dyad_matches_claim_formula_witness :
    ([(1 : ℝ)]).length = ([(1 : ℝ)]).length ∧
    dyadicDissonance 220 (3 / 2) ⟨[1], [1]⟩ =
      dyadicDissonanceClaim 220 (3 / 2) [1] [1] :=
  ⟨rfl, dyad_matches_claim_formula 220 (3 / 2) [1] [1] rfl⟩

/-! ## Claim C4 — kernel sign properties and non-negative dyad scores -/

/-- Claim C4: the kernel is non-negative for positive frequencies and
non-negative loudness weights, vanishes exactly at equal frequencies, and
consequently `dyadicDissonance` is non-negative on positive-frequency,
positive-amplitude spectra (positive base frequency and ratio). -/
theorem kernel_sign_and_dyad_nonneg :
    (∀ f1 f2 l1 l2 : ℝ, 0 < f1 → 0 < f2 → 0 ≤ l1 → 0 ≤ l2 →
      0 ≤ dissonanceKernel f1 f2 l1 l2) ∧
    (∀ f l1 l2 : ℝ, dissonanceKernel f f l1 l2 = 0) ∧
    (∀ (f0 r : ℝ) (sp : Spectrum), 0 < f0 → 0 < r →
      (∀ w ∈ sp.freq, 0 < w) → (∀ a ∈ sp.amp, 0 < a) →
      0 ≤ dyadicDissonance f0 r sp) := by
  refine ⟨fun f1 f2 l1 l2 h1 h2 h3 h4 =>
      dissonanceKernel_nonneg f1 f2 l1 l2 (le_of_lt h1) (le_of_lt h2) h3 h4,
    fun f l1 l2 => dissonanceKernel_self f l1 l2, ?_⟩
  intro f0 r sp hf0 hr hw _
  rw [dyadicDissonance_eq]
  have hterm : ∀ i ∈ Finset.range sp.freq.length,
      ∀ j ∈ Finset.range sp.freq.length,
      (0 : ℝ) ≤
        0.5 * dissonanceKernel (f0 * sp.freq.getD i 0) (f0 * sp.freq.getD j 0)
            ((sp.amp.map ampToLoudness).getD i 0)
            ((sp.amp.map ampToLoudness).getD j 0) +
          0.5 * dissonanceKernel (r * (f0 * sp.freq.getD i 0))
            (r * (f0 * sp.freq.getD j 0))
            ((sp.amp.map ampToLoudness).getD i 0)
            ((sp.amp.map ampToLoudness).getD j 0) +
          dissonanceKernel (f0 * sp.freq.getD i 0) (r * (f0 * sp.freq.getD j 0))
            ((sp.amp.map ampToLoudness).getD i 0)
            ((sp.amp.map ampToLoudness).getD j 0) := by
    intro i hi j hj
    have hwi : 0 < sp.freq.getD i 0 :=
      getD_pos_of_forall_pos _ _ (Finset.mem_range.mp hi) hw
    have hwj : 0 < sp.freq.getD j 0 :=
      getD_pos_of_forall_pos _ _ (Finset.mem_range.mp hj) hw
    have hfi : 0 ≤ f0 * sp.freq.getD i 0 := le_of_lt (mul_pos hf0 hwi)
    have hfj : 0 ≤ f0 * sp.freq.getD j 0 := le_of_lt (mul_pos hf0 hwj)
    have hri : 0 ≤ r * (f0 * sp.freq.getD i 0) :=
      le_of_lt (mul_pos hr (mul_pos hf0 hwi))
    have hrj : 0 ≤ r * (f0 * sp.freq.getD j 0) :=
      le_of_lt (mul_pos hr (mul_pos hf0 hwj))
    have hli := loudness_getD_nonneg sp.amp i
    have hlj := loudness_getD_nonneg sp.amp j
    have k1 := dissonanceKernel_nonneg _ _ _ _ hfi hfj hli hlj
    have k2 := dissonanceKernel_nonneg _ _ _ _ hri hrj hli hlj
    have k3 := dissonanceKernel_nonneg _ _ _ _ hfi hrj hli hlj
    nlinarith
  have hsum : (0 : ℝ) ≤
      ∑ i ∈ Finset.range sp.freq.length, ∑ j ∈ Finset.range sp.freq.length,
        (0.5 * dissonanceKernel (f0 * sp.freq.getD i 0) (f0 * sp.freq.getD j 0)
            ((sp.amp.map ampToLoudness).getD i 0)
            ((sp.amp.map ampToLoudness).getD j 0) +
         0.5 * dissonanceKernel (r * (f0 * sp.freq.getD i 0))
            (r * (f0 * sp.freq.getD j 0))
            ((sp.amp.map ampToLoudness).getD i 0)
            ((sp.amp.map ampToLoudness).getD j 0) +
         dissonanceKernel (f0 * sp.freq.getD i 0) (r * (f0 * sp.freq.getD j 0))
            ((sp.amp.map ampToLoudness).getD i 0)
            ((sp.amp.map ampToLoudness).getD j 0)) :=
    Finset.sum_nonneg (fun i hi => Finset.sum_nonneg (fun j hj => hterm i hi j hj))
  linarith

/-- Witness for `kernel_sign_and_dyad_nonneg` at concrete inputs. -/
theorem kernel_sign_and_dyad_nonneg_witness :
    ((0 : ℝ) < 2 ∧ (0 : ℝ) < 3 ∧ (0 : ℝ) ≤ 1 ∧
      0 ≤ dissonanceKernel 2 3 1 1) ∧
    dissonanceKernel 5 5 1 1 = 0 ∧
    ((0 : ℝ) < 220 ∧ (0 : ℝ) < 3 / 2 ∧
      0 ≤ dyadicDissonance 220 (3 / 2) ⟨[1], [1]⟩) :=
  ⟨⟨by norm_num, by norm_num, by norm_num,
      kernel_sign_and_dyad_nonneg.1 2 3 1 1 (by norm_num) (by norm_num)
        (by norm_num) (by norm_num)⟩,
    kernel_sign_and_dyad_nonneg.2.1 5 1 1,
    ⟨by norm_num, by norm_num,
      kernel_sign_and_dyad_nonneg.2.2 220 (3 / 2) ⟨[1], [1]⟩ (by norm_num)
        (by norm_num)
        (by intro w hw; rw [List.mem_singleton] at hw; rw [hw]; norm_num)
        (by intro a ha; rw [List.mem_singleton] at ha; rw [ha]; norm_num)⟩⟩

/-! ## Claim C1 — `ReferenceOsc.stop` idempotence direction -/

open ReferenceAudio

/-- Claim C1 as stated is false: with stop time 1 committed, a stop request
at time 2 — strictly after the committed time — is a silent no-op, not a
re-commitment of the later time.  The guard `time >= scheduledStop - 1e-6`
only lets strictly earlier requests through. -/
theorem oscStop_later_recommit_counterexample :
    (1 : ℚ) < 2 ∧
    oscStop ⟨some 1⟩ 2 = (⟨some 1⟩, false) ∧
    some (1 : ℚ) ≠ some (2 : ℚ) := by
  refine ⟨by norm_num, ?_, by simp⟩
  simp only [oscStop, STOP_EPS]
  rw [if_pos (by norm_num)]

/-- Claim C1 (amended): once a stop time `t0` is committed, a stop request at
any time `t ≥ t0 - 1e-6` (at, after, or within epsilon before `t0`) is a
silent no-op leaving the commitment unchanged, and a stop request strictly
earlier than `t0 - 1e-6` re-commits that earlier time (issuing a driver
stop). -/
theorem oscStop_committed (t0 t : ℚ) :
    (t0 - STOP_EPS ≤ t → oscStop ⟨some t0⟩ t = (⟨some t0⟩, false)) ∧
    (t < t0 - STOP_EPS → oscStop ⟨some t0⟩ t = (⟨some t⟩, true)) := by
  constructor
  · intro h
    simp only [oscStop]
    rw [if_pos h]
  · intro h
    simp only [oscStop]
    rw [if_neg (not_le.mpr h)]

/-- Witness for `oscStop_committed` at `t0 = 1` with requests at `5` (no-op)
and `0` (re-commit). -/
theorem oscStop_committed_witness :
    ((1 : ℚ) - STOP_EPS ≤ 5 ∧ oscStop ⟨some 1⟩ 5 = (⟨some 1⟩, false)) ∧
    ((0 : ℚ) < 1 - STOP_EPS ∧ oscStop ⟨some 1⟩ 0 = (⟨some 0⟩, true)) :=
  ⟨⟨by norm_num [STOP_EPS], (oscStop_committed 1 5).1 (by norm_num [STOP_EPS])⟩,
   ⟨by norm_num [STOP_EPS], (oscStop_committed 1 0).2 (by norm_num [STOP_EPS])⟩⟩

/-! ## Claim C2 — spectrum builder has no partial-count clamp -/

/-- Claim C2 as stated is false: `spectrumFromHarmonics` does not clamp the
partial count, so a caller passing `numPartials = 0` receives an empty
spectrum, not the claimed `max(0, 1) = 1`-partial spectrum. -/
theorem spectrum_clamp_counterexample :
    (spectrumFromHarmonics 1 0 1).freq.length = 0 ∧
    (spectrumFromHarmonics 1 0 1).amp.length = 0 ∧
    max 0 1 = 1 := by
  refine ⟨?_, ?_, rfl⟩ <;> simp [spectrumFromHarmonics, harmonicTonePartials]

/-- Claim C2 (amended): `spectrumFromHarmonics` performs no clamping: for
every fundamental `f0 > 0`, roll-off `ρ` and requested count `n ≥ 0` it
returns a spectrum with exactly `n` partials whose `k`-th partial
(1-based, list index `k - 1`) has frequency multiplier exactly `k` and
amplitude exactly `k ^ (-ρ)`; a caller passing `n = 0` receives an empty
spectrum. -/
theorem spectrumFromHarmonics_partials (f0 ρ : ℝ) (n : ℕ) (hf : 0 < f0) :
    (spectrumFromHarmonics f0 n ρ).freq.length = n ∧
    (spectrumFromHarmonics f0 n ρ).amp.length = n ∧
    (∀ k < n, (spectrumFromHarmonics f0 n ρ).freq.getD k 0 = (k + 1 : ℝ)) ∧
    (∀ k < n, (spectrumFromHarmonics f0 n ρ).amp.getD k 0 =
      Real.rpow (k + 1 : ℝ) (-ρ)) := by
  refine ⟨by simp only [spectrumFromHarmonics, harmonicTonePartials,
      List.length_map, List.length_range],
    by simp only [spectrumFromHarmonics, harmonicTonePartials,
      List.length_map, List.length_range], ?_, ?_⟩
  · intro k hk
    show ((harmonicTonePartials f0 n ρ).map (fun p => p.1 / f0)).getD k 0 = _
    rw [harmonicTonePartials, List.map_map, getD_map_range _ _ _ hk]
    exact mul_div_cancel_right₀ _ (ne_of_gt hf)
  · intro k hk
    show ((harmonicTonePartials f0 n ρ).map (fun p => p.2)).getD k 0 = _
    rw [harmonicTonePartials, List.map_map, getD_map_range _ _ _ hk]
    rfl

/-- Witness for `spectrumFromHarmonics_partials` at `f0 = 2`, `ρ = 1`,
`n = 3`. -/
theorem spectrumFromHarmonics_partials_witness :
    (0 : ℝ) < 2 ∧ (spectrumFromHarmonics 2 3 1).freq.length = 3 :=
  ⟨by norm_num, (spectrumFromHarmonics_partials 2 1 3 (by norm_num)).1⟩

/-! ## Claim C8 — the page-inline dyad computation equals the library's -/

/-- Claim C8: for every `f0`, ratio, requested partial count and roll-off,
the inline `dyadicDissonance` reimplementation in the dyadic-explorer page
computes exactly the same value as the shared library's
`dyadicDissonance (spectrumFromHarmonics ...)`. -/
theorem page_dyad_matches_library (f0 r : ℝ) (n : ℕ) (ρ : ℝ) :
    DyadicExplorerPage.dyadicDissonance f0 r n ρ =
      dyadicDissonance f0 r (spectrumFromHarmonics f0 n ρ) := rfl

/-! ## Claim C9 — `ReferenceSynth.play` with an empty spectrum -/

/-- Claim C9: `ReferenceSynth.play` on a synth constructed with an empty
partial-multiplier list returns the start time unchanged and issues no voice
operation whatsoever. -/
theorem synthPlay_empty (pa : List ℚ) (baseFrequency startTime : ℚ) :
    synthPlay [] pa baseFrequency startTime = (startTime, []) := by
  simp [synthPlay]

/-! ## Claim C10 — `midiToNoteName` is total -/

/-- Claim C10: for every real `midi` input the computed note index
`((round(m) % 12) + 12) % 12` (JavaScript `%` = truncating remainder) lies
in `[0, 11]`, so `midiToNoteName` always returns the note letter at that
index concatenated with octave `floor(round(m) / 12) - 1`. -/
theorem midiToNoteName_total (m : ℝ) :
    (0 ≤ noteIndex m ∧ noteIndex m < 12) ∧
    midiToNoteName m =
      NOTE_NAMES.getD (noteIndex m).toNat blankNote ++
        toString (Int.fdiv (round m) 12 - 1) := by
  refine ⟨?_, rfl⟩
  have h1 : -12 < (round m).tmod 12 := tmod_twelve_lower (round m)
  have h2 : (0 : ℤ) ≤ (round m).tmod 12 + 12 := by omega
  have h3 : noteIndex m = ((round m).tmod 12 + 12) % 12 := by
    unfold noteIndex
    exact Int.tmod_eq_emod h2 (by norm_num)
  constructor
  · rw [h3]; exact Int.emod_nonneg _ (by norm_num)
  · rw [h3]; exact Int.emod_lt_of_pos _ (by norm_num)

/-! ## Helper lemmas for the triad surface (claim C5) -/

/-- `getD` through `map`, for arbitrary element types. -/
theorem getD_map_general {α β : Type} (f : α → β) (l : List α) (i : ℕ)
    (dα : α) (dβ : β) (h : i < l.length) :
    (l.map f).getD i dβ = f (l.getD i dα) := by
  rw [List.getD_eq_getElem?_getD, List.getD_eq_getElem?_getD, List.getElem?_map,
    List.getElem?_eq_getElem h]
  simp

/-- Rounding to six decimals preserves non-negativity. -/
theorem roundTo6_nonneg (x : ℝ) (hx : 0 ≤ x) : 0 ≤ roundTo6 x := by
  unfold roundTo6
  have h1 : (0 : ℤ) ≤ round (x * 1000000) := by
    rw [round_eq]
    exact Int.floor_nonneg.mpr (by nlinarith)
  positivity

/-- Length of the ratio axis when the loop bound admits at least one
sample. -/
theorem triadRatios_length (lo hi step : ℝ) (h : lo ≤ hi + 1 / 1000000000) :
    (triadRatios lo hi step).length =
      ⌊(hi + 1 / 1000000000 - lo) / step⌋₊ + 1 := by
  unfold triadRatios
  rw [if_pos h]
  simp only [List.length_map, List.length_range]

/-- The ratio axis is non-empty whenever `lo ≤ hi`. -/
theorem triadRatios_ne_nil (lo hi step : ℝ) (h : lo ≤ hi) :
    triadRatios lo hi step ≠ [] := by
  have h' : lo ≤ hi + 1 / 1000000000 := by linarith
  have := triadRatios_length lo hi step h'
  intro hnil
  rw [hnil] at this
  simp at this

/-- Every ratio sample is a rounded `lo + k * step`. -/
theorem mem_triadRatios (lo hi step x : ℝ) (hx : x ∈ triadRatios lo hi step) :
    ∃ k : ℕ, x = roundTo6 (lo + k * step) := by
  unfold triadRatios at hx
  by_cases h : lo ≤ hi + 1 / 1000000000
  · rw [if_pos h] at hx
    obtain ⟨k, _, hk⟩ := List.mem_map.mp hx
    exact ⟨k, hk.symm⟩
  · rw [if_neg h] at hx
    exact absurd hx (List.not_mem_nil x)

/-- With `lo ≥ 0` and `step > 0` every ratio sample is non-negative. -/
theorem triadRatios_nonneg (lo hi step : ℝ) (hlo : 0 ≤ lo) (hstep : 0 < step) :
    ∀ x ∈ triadRatios lo hi step, 0 ≤ x := by
  intro x hx
  obtain ⟨k, hk⟩ := mem_triadRatios lo hi step x hx
  rw [hk]
  exact roundTo6_nonneg _ (by positivity)

/-- `runningMax` agrees with `List.max?`: the fold from
`NEGATIVE_INFINITY` computes the maximum of the list. -/
theorem runningMax_eq_max (l : List ℝ) : runningMax l = l.max? := by
  have aux : ∀ (l : List ℝ) (m : ℝ),
      l.foldl (fun acc v =>
        match acc with
        | none => some v
        | some m => some (max m v)) (some m) = some (l.foldl max m) := by
    intro l
    induction l with
    | nil => intro m; rfl
    | cons a l ih => intro m; exact ih (max m a)
  cases l with
  | nil => rfl
  | cons a l =>
    rw [List.max?_cons']
    exact aux l a

/-- A non-empty list has a `runningMax`. -/
theorem runningMax_isSome (l : List ℝ) (h : l ≠ []) :
    ∃ M, runningMax l = some M := by
  rw [runningMax_eq_max]
  rcases hM : l.max? with _ | M
  · exact absurd (List.max?_eq_none_iff.mp hM) h
  · exact ⟨M, rfl⟩

/-- Every element is bounded by the `runningMax`. -/
theorem le_runningMax (l : List ℝ) (M v : ℝ) (hM : runningMax l = some M)
    (hv : v ∈ l) : v ≤ M := by
  rw [runningMax_eq_max] at hM
  exact (List.max?_le_iff (fun a b c => max_le_iff) hM).mp (le_refl M) v hv

/-- `triadCellScore` with its `let` bindings substituted. -/
theorem triadCellScore_eq (baseFreq : ℝ) (sp : Spectrum) (r s : ℝ) :
    triadCellScore baseFreq sp r s =
      (∑ i ∈ Finset.range sp.freq.length, ∑ j ∈ Finset.range sp.freq.length,
        (dissonanceKernel (baseFreq * sp.freq.getD i 0) (baseFreq * sp.freq.getD j 0)
            ((sp.amp.map ampToLoudness).getD i 0) ((sp.amp.map ampToLoudness).getD j 0) +
         dissonanceKernel (r * (baseFreq * sp.freq.getD i 0)) (r * (baseFreq * sp.freq.getD j 0))
            ((sp.amp.map ampToLoudness).getD i 0) ((sp.amp.map ampToLoudness).getD j 0) +
         dissonanceKernel (baseFreq * sp.freq.getD i 0) (r * (baseFreq * sp.freq.getD j 0))
            ((sp.amp.map ampToLoudness).getD i 0) ((sp.amp.map ampToLoudness).getD j 0) +
         dissonanceKernel (s * (baseFreq * sp.freq.getD i 0)) (s * (baseFreq * sp.freq.getD j 0))
            ((sp.amp.map ampToLoudness).getD i 0) ((sp.amp.map ampToLoudness).getD j 0) +
         dissonanceKernel (baseFreq * sp.freq.getD i 0) (s * (baseFreq * sp.freq.getD j 0))
            ((sp.amp.map ampToLoudness).getD i 0) ((sp.amp.map ampToLoudness).getD j 0) +
         dissonanceKernel (r * (baseFreq * sp.freq.getD i 0)) (s * (baseFreq * sp.freq.getD j 0))
            ((sp.amp.map ampToLoudness).getD i 0) ((sp.amp.map ampToLoudness).getD j 0))) / 2 :=
  rfl

/-- A triad cell score is non-negative whenever the base frequency, the
spectrum multipliers, and both grid ratios are non-negative. -/
theorem triadCellScore_nonneg (baseFreq : ℝ) (sp : Spectrum) (r s : ℝ)
    (hf : 0 ≤ baseFreq) (hw : ∀ w ∈ sp.freq, 0 ≤ w) (hr : 0 ≤ r)
    (hs : 0 ≤ s) : 0 ≤ triadCellScore baseFreq sp r s := by
  rw [triadCellScore_eq]
  have hgetD : ∀ i, 0 ≤ sp.freq.getD i 0 := by
    intro i
    rcases lt_or_ge i sp.freq.length with h | h
    · rw [List.getD_eq_getElem sp.freq 0 h]
      exact hw _ (List.getElem_mem h)
    · rw [List.getD_eq_default _ _ h]
  have hterm : ∀ i ∈ Finset.range sp.freq.length,
      ∀ j ∈ Finset.range sp.freq.length, (0 : ℝ) ≤
        dissonanceKernel (baseFreq * sp.freq.getD i 0) (baseFreq * sp.freq.getD j 0)
            ((sp.amp.map ampToLoudness).getD i 0) ((sp.amp.map ampToLoudness).getD j 0) +
          dissonanceKernel (r * (baseFreq * sp.freq.getD i 0)) (r * (baseFreq * sp.freq.getD j 0))
            ((sp.amp.map ampToLoudness).getD i 0) ((sp.amp.map ampToLoudness).getD j 0) +
          dissonanceKernel (baseFreq * sp.freq.getD i 0) (r * (baseFreq * sp.freq.getD j 0))
            ((sp.amp.map ampToLoudness).getD i 0) ((sp.amp.map ampToLoudness).getD j 0) +
          dissonanceKernel (s * (baseFreq * sp.freq.getD i 0)) (s * (baseFreq * sp.freq.getD j 0))
            ((sp.amp.map ampToLoudness).getD i 0) ((sp.amp.map ampToLoudness).getD j 0) +
          dissonanceKernel (baseFreq * sp.freq.getD i 0) (s * (baseFreq * sp.freq.getD j 0))
            ((sp.amp.map ampToLoudness).getD i 0) ((sp.amp.map ampToLoudness).getD j 0) +
          dissonanceKernel (r * (baseFreq * sp.freq.getD i 0)) (s * (baseFreq * sp.freq.getD j 0))
            ((sp.amp.map ampToLoudness).getD i 0) ((sp.amp.map ampToLoudness).getD j 0) := by
    intro i _ j _
    have hfi : 0 ≤ baseFreq * sp.freq.getD i 0 := mul_nonneg hf (hgetD i)
    have hfj : 0 ≤ baseFreq * sp.freq.getD j 0 := mul_nonneg hf (hgetD j)
    have hli := loudness_getD_nonneg sp.amp i
    have hlj := loudness_getD_nonneg sp.amp j
    have k1 := dissonanceKernel_nonneg _ _ _ _ hfi hfj hli hlj
    have k2 := dissonanceKernel_nonneg _ _ _ _ (mul_nonneg hr hfi) (mul_nonneg hr hfj) hli hlj
    have k3 := dissonanceKernel_nonneg _ _ _ _ hfi (mul_nonneg hr hfj) hli hlj
    have k4 := dissonanceKernel_nonneg _ _ _ _ (mul_nonneg hs hfi) (mul_nonneg hs hfj) hli hlj
    have k5 := dissonanceKernel_nonneg _ _ _ _ hfi (mul_nonneg hs hfj) hli hlj
    have k6 := dissonanceKernel_nonneg _ _ _ _ (mul_nonneg hr hfi) (mul_nonneg hs hfj) hli hlj
    linarith
  have hsum := Finset.sum_nonneg (fun i hi =>
    Finset.sum_nonneg (fun j hj => hterm i hi j hj))
  linarith

/-- `computeTriadSurface` with its `let` bindings substituted. -/
theorem computeTriadSurface_eq (baseFreq : ℝ) (sp : Spectrum) (lo hi step : ℝ) :
    computeTriadSurface baseFreq sp lo hi step =
      ⟨triadRatios lo hi step,
       (triadRawGrid baseFreq sp (triadRatios lo hi step)).map (fun row =>
         row.map (normalizeCell
           (runningMax (triadRawGrid baseFreq sp (triadRatios lo hi step)).flatten)))⟩ :=
  rfl

/-- Every value of the raw grid is a cell score at two axis ratios. -/
theorem mem_triadRawGrid (baseFreq : ℝ) (sp : Spectrum) (rs : List ℝ) (v : ℝ)
    (hv : v ∈ (triadRawGrid baseFreq sp rs).flatten) :
    ∃ r ∈ rs, ∃ s ∈ rs, v = triadCellScore baseFreq sp r s := by
  obtain ⟨row, hrow, hvrow⟩ := List.mem_flatten.mp hv
  obtain ⟨r, hr, hrown⟩ := List.mem_map.mp hrow
  rw [← hrown] at hvrow
  obtain ⟨s, hs, hcell⟩ := List.mem_map.mp hvrow
  exact ⟨r, hr, s, hs, hcell.symm⟩

/-- Every cell score over the axis appears in the flattened raw grid. -/
theorem triadCellScore_mem_flatten (baseFreq : ℝ) (sp : Spectrum)
    (rs : List ℝ) (r s : ℝ) (hr : r ∈ rs) (hs : s ∈ rs) :
    triadCellScore baseFreq sp r s ∈ (triadRawGrid baseFreq sp rs).flatten := by
  refine List.mem_flatten.mpr ⟨rs.map (fun s => triadCellScore baseFreq sp r s), ?_, ?_⟩
  · exact List.mem_map.mpr ⟨r, hr, rfl⟩
  · exact List.mem_map.mpr ⟨s, hs, rfl⟩

/-! ## Claim C5 — the triad surface is a normalized square height-field -/

/-- Claim C5 (amended): for every data-model spectrum (multipliers ≥ 1,
amplitudes > 0), base frequency > 0, `0 ≤ minRatio ≤ maxRatio` and
`step > 0`, `computeTriadSurface` returns a square height-field
(`values.length = ratios.length`, each row of length `ratios.length`) whose
entries all lie in `[0, 1]` and equal the cell's raw score divided by the
grid maximum when that maximum is positive, and 0 everywhere otherwise. -/
theorem computeTriadSurface_normalized (baseFreq : ℝ) (sp : Spectrum)
    (lo hi step : ℝ) (hf : 0 < baseFreq) (hw : ∀ w ∈ sp.freq, 1 ≤ w)
    (ha : ∀ a ∈ sp.amp, 0 < a) (hlo : 0 ≤ lo) (hhi : lo ≤ hi)
    (hstep : 0 < step) :
    (computeTriadSurface baseFreq sp lo hi step).values.length =
      (computeTriadSurface baseFreq sp lo hi step).ratios.length ∧
    (∀ row ∈ (computeTriadSurface baseFreq sp lo hi step).values,
      row.length = (computeTriadSurface baseFreq sp lo hi step).ratios.length) ∧
    (∀ row ∈ (computeTriadSurface baseFreq sp lo hi step).values,
      ∀ v ∈ row, 0 ≤ v ∧ v ≤ 1) ∧
    (∃ M, runningMax
        (triadRawGrid baseFreq sp (triadRatios lo hi step)).flatten = some M ∧
      ∀ i j, i < (triadRatios lo hi step).length →
        j < (triadRatios lo hi step).length →
        ((computeTriadSurface baseFreq sp lo hi step).values.getD i []).getD j 0 =
          if 0 < M then
            triadCellScore baseFreq sp ((triadRatios lo hi step).getD i 0)
              ((triadRatios lo hi step).getD j 0) / M
          else 0) := by
  have hvals : (computeTriadSurface baseFreq sp lo hi step).values =
      (triadRawGrid baseFreq sp (triadRatios lo hi step)).map (fun row =>
        row.map (normalizeCell (runningMax
          (triadRawGrid baseFreq sp (triadRatios lo hi step)).flatten))) := rfl
  have hratios_eq : (computeTriadSurface baseFreq sp lo hi step).ratios =
      triadRatios lo hi step := rfl
  have hw0 : ∀ w ∈ sp.freq, 0 ≤ w := fun w h => le_trans zero_le_one (hw w h)
  have hrs_nonneg := triadRatios_nonneg lo hi step hlo hstep
  have hrs_ne := triadRatios_ne_nil lo hi step hhi
  have hflat_ne : (triadRawGrid baseFreq sp (triadRatios lo hi step)).flatten ≠ [] := by
    obtain ⟨r0, hr0⟩ := List.exists_mem_of_ne_nil _ hrs_ne
    exact List.ne_nil_of_mem
      (triadCellScore_mem_flatten baseFreq sp _ r0 r0 hr0 hr0)
  obtain ⟨M, hM⟩ := runningMax_isSome _ hflat_ne
  have hub : ∀ r ∈ triadRatios lo hi step, ∀ s ∈ triadRatios lo hi step,
      triadCellScore baseFreq sp r s ≤ M := fun r hr s hs =>
    le_runningMax _ _ _ hM (triadCellScore_mem_flatten baseFreq sp _ r s hr hs)
  have hcell0 : ∀ r ∈ triadRatios lo hi step, ∀ s ∈ triadRatios lo hi step,
      0 ≤ triadCellScore baseFreq sp r s := fun r hr s hs =>
    triadCellScore_nonneg baseFreq sp r s (le_of_lt hf) hw0
      (hrs_nonneg r hr) (hrs_nonneg s hs)
  refine ⟨?_, ?_, ?_, M, hM, ?_⟩
  · rw [hvals, hratios_eq, List.length_map, triadRawGrid, List.length_map]
  · intro row hrow
    rw [hvals] at hrow
    obtain ⟨inner, hinner, hrow_eq⟩ := List.mem_map.mp hrow
    obtain ⟨r, _, hinner_eq⟩ := List.mem_map.mp hinner
    rw [← hrow_eq, ← hinner_eq, hratios_eq, List.length_map, List.length_map]
  · intro row hrow v hv
    rw [hvals] at hrow
    obtain ⟨inner, hinner, hrow_eq⟩ := List.mem_map.mp hrow
    obtain ⟨r, hr, hinner_eq⟩ := List.mem_map.mp hinner
    rw [← hrow_eq] at hv
    obtain ⟨c, hc, hv_eq⟩ := List.mem_map.mp hv
    rw [← hinner_eq] at hc
    obtain ⟨s, hs, hc_eq⟩ := List.mem_map.mp hc
    rw [← hv_eq, hM, normalizeCell]
    by_cases hMpos : 0 < M
    · rw [if_pos hMpos, ← hc_eq]
      constructor
      · exact div_nonneg (hcell0 r hr s hs) (le_of_lt hMpos)
      · exact (div_le_one hMpos).mpr (hub r hr s hs)
    · rw [if_neg hMpos]
      norm_num
  · intro i j hi' hj'
    have hgrid_len : (triadRawGrid baseFreq sp (triadRatios lo hi step)).length =
        (triadRatios lo hi step).length := by
      rw [triadRawGrid, List.length_map]
    rw [hvals]
    rw [getD_map_general _ _ i ([] : List ℝ) ([] : List ℝ) (by rwa [hgrid_len])]
    rw [show (triadRawGrid baseFreq sp (triadRatios lo hi step)).getD i [] =
        (triadRatios lo hi step).map (fun s =>
          triadCellScore baseFreq sp ((triadRatios lo hi step).getD i 0) s) from by
      rw [triadRawGrid]
      exact getD_map_general _ _ i (0 : ℝ) ([] : List ℝ) hi']
    rw [List.map_map,
      getD_map_general _ _ j (0 : ℝ) (0 : ℝ) hj']
    rw [Function.comp_apply, hM, normalizeCell]

/-- Witness for `computeTriadSurface_normalized` on the one-partial spectrum
over the default-like window `[1, 2]` with step `1/2`. -/
theorem computeTriadSurface_normalized_witness :
    ((0 : ℝ) < 220 ∧ (0 : ℝ) ≤ 1 ∧ (1 : ℝ) ≤ 2 ∧ (0 : ℝ) < 1 / 2) ∧
    (computeTriadSurface 220 ⟨[1], [1]⟩ 1 2 (1 / 2)).values.length =
      (computeTriadSurface 220 ⟨[1], [1]⟩ 1 2 (1 / 2)).ratios.length :=
  ⟨⟨by norm_num, by norm_num, by norm_num, by norm_num⟩,
    (computeTriadSurface_normalized 220 ⟨[1], [1]⟩ 1 2 (1 / 2) (by norm_num)
      (by intro w hw; rw [List.mem_singleton] at hw; rw [hw])
      (by intro a ha; rw [List.mem_singleton] at ha; rw [ha]; norm_num)
      (by norm_num) (by norm_num) (by norm_num)).1⟩

/-- The grid axis for the counterexample window `[-10, 4]` with step 14. -/
theorem triadRatios_counterexample_axis :
    triadRatios (-10) 4 14 = [-10, 4] := by
  unfold triadRatios
  rw [if_pos (by norm_num)]
  have hfl : ⌊((4 : ℝ) + 1 / 1000000000 - (-10)) / 14⌋₊ = 1 := by
    rw [Nat.floor_eq_iff (by positivity)]
    norm_num
  rw [hfl]
  norm_num [List.range_succ, roundTo6, round_eq]

/-- Claim C5 as stated is false: it quantifies over every
`minRatio ≤ maxRatio`, but with `minRatio = -10`, `maxRatio = 4`,
`step = 14`, base frequency 220 and the one-partial spectrum (multiplier 1,
amplitude 1) the grid maximum is positive while the raw score at grid cell
`(0, 0)` (ratios `(-10, -10)`) is negative, so the normalized entry
`values[0][0]` is strictly below 0 — outside the claimed `[0, 1]`. -/
theorem triad_surface_claim_counterexample :
    ((-10 : ℝ) ≤ 4) ∧ ((0 : ℝ) < 14) ∧ ((0 : ℝ) < 220) ∧ ((0 : ℝ) < 1) ∧
    ((computeTriadSurface 220 ⟨[1], [1]⟩ (-10) 4 14).values.getD 0 []).getD 0 0
      < 0 := by
  refine ⟨by norm_num, by norm_num, by norm_num, by norm_num, ?_⟩
  have hLpos : 0 < ampToLoudness 1 := ampToLoudness_pos 1
  have hc00 : triadCellScore 220 ⟨[1], [1]⟩ (-10) (-10) < 0 := by
    have hcell00 : triadCellScore 220 ⟨[1], [1]⟩ (-10) (-10) =
        (dissonanceKernel 220 220 (ampToLoudness 1) (ampToLoudness 1) +
         dissonanceKernel (-2200) (-2200) (ampToLoudness 1) (ampToLoudness 1) +
         dissonanceKernel 220 (-2200) (ampToLoudness 1) (ampToLoudness 1) +
         dissonanceKernel (-2200) (-2200) (ampToLoudness 1) (ampToLoudness 1) +
         dissonanceKernel 220 (-2200) (ampToLoudness 1) (ampToLoudness 1) +
         dissonanceKernel (-2200) (-2200) (ampToLoudness 1) (ampToLoudness 1)) / 2 := by
      rw [triadCellScore_eq]
      norm_num [Finset.sum_range_one]
    rw [hcell00]
    have hs1 := dissonanceKernel_self 220 (ampToLoudness 1) (ampToLoudness 1)
    have hs2 := dissonanceKernel_self (-2200 : ℝ) (ampToLoudness 1) (ampToLoudness 1)
    have hcross : dissonanceKernel 220 (-2200 : ℝ)
        (ampToLoudness 1) (ampToLoudness 1) < 0 := by
      refine dissonanceKernel_neg _ _ _ _ ?_ ?_ ?_
      · norm_num [min_def, max_def]
      · norm_num [min_def]
      · rw [min_self]; exact hLpos
    linarith
  have hc11 : 0 < triadCellScore 220 ⟨[1], [1]⟩ 4 4 := by
    have hcell44 : triadCellScore 220 ⟨[1], [1]⟩ 4 4 =
        (dissonanceKernel 220 220 (ampToLoudness 1) (ampToLoudness 1) +
         dissonanceKernel 880 880 (ampToLoudness 1) (ampToLoudness 1) +
         dissonanceKernel 220 880 (ampToLoudness 1) (ampToLoudness 1) +
         dissonanceKernel 880 880 (ampToLoudness 1) (ampToLoudness 1) +
         dissonanceKernel 220 880 (ampToLoudness 1) (ampToLoudness 1) +
         dissonanceKernel 880 880 (ampToLoudness 1) (ampToLoudness 1)) / 2 := by
      rw [triadCellScore_eq]
      norm_num [Finset.sum_range_one]
    rw [hcell44]
    have hs1 := dissonanceKernel_self 220 (ampToLoudness 1) (ampToLoudness 1)
    have hs2 := dissonanceKernel_self (880 : ℝ) (ampToLoudness 1) (ampToLoudness 1)
    have hcross : 0 < dissonanceKernel 220 (880 : ℝ)
        (ampToLoudness 1) (ampToLoudness 1) := by
      refine dissonanceKernel_pos _ _ _ _ ?_ ?_ ?_
      · norm_num [min_def, max_def]
      · norm_num [min_def]
      · rw [min_self]; exact hLpos
    linarith
  have hvals : (computeTriadSurface 220 ⟨[1], [1]⟩ (-10) 4 14).values =
      (triadRawGrid 220 ⟨[1], [1]⟩ (triadRatios (-10) 4 14)).map (fun row =>
        row.map (normalizeCell (runningMax
          (triadRawGrid 220 ⟨[1], [1]⟩ (triadRatios (-10) 4 14)).flatten))) := rfl
  have hgrid : triadRawGrid 220 ⟨[1], [1]⟩ [-10, 4] =
      [[triadCellScore 220 ⟨[1], [1]⟩ (-10) (-10),
        triadCellScore 220 ⟨[1], [1]⟩ (-10) 4],
       [triadCellScore 220 ⟨[1], [1]⟩ 4 (-10),
        triadCellScore 220 ⟨[1], [1]⟩ 4 4]] := rfl
  rw [hvals, triadRatios_counterexample_axis, hgrid]
  have hrm : runningMax
      [[triadCellScore 220 ⟨[1], [1]⟩ (-10) (-10),
        triadCellScore 220 ⟨[1], [1]⟩ (-10) 4],
       [triadCellScore 220 ⟨[1], [1]⟩ 4 (-10),
        triadCellScore 220 ⟨[1], [1]⟩ 4 4]].flatten =
      some (max (max (max (triadCellScore 220 ⟨[1], [1]⟩ (-10) (-10))
            (triadCellScore 220 ⟨[1], [1]⟩ (-10) 4))
          (triadCellScore 220 ⟨[1], [1]⟩ 4 (-10)))
        (triadCellScore 220 ⟨[1], [1]⟩ 4 4)) := rfl
  rw [hrm]
  have hMpos : 0 < max (max (max (triadCellScore 220 ⟨[1], [1]⟩ (-10) (-10))
        (triadCellScore 220 ⟨[1], [1]⟩ (-10) 4))
      (triadCellScore 220 ⟨[1], [1]⟩ 4 (-10)))
      (triadCellScore 220 ⟨[1], [1]⟩ 4 4) := lt_max_iff.mpr (Or.inr hc11)
  simp only [List.map_cons, List.map_nil, List.getD_cons_zero]
  rw [show ∀ v m : ℝ, normalizeCell (some m) v = if 0 < m then v / m else 0
    from fun v m => rfl]
  rw [if_pos hMpos]
  exact div_neg_of_neg_of_pos hc00 hMpos

/-! ## Claim C7 — `playChord` ordering and single captured timestamp -/

/-- Claim C7: in a `playChord` call with a non-empty partial list, every
previously active synth is force-silenced (at the `stopAll` clock read)
before any new synth starts, one synth is started per tuning entry, and all
started synths carry the one captured timestamp `clock 1` — the single
`ctx.currentTime` read taken after `stopAll` — never a re-sampled value. -/
theorem playChord_order_single_timestamp (clock : ℕ → ℚ) (active : List ℕ)
    (baseFrequency : ℚ) (pm tuning : List ℚ) (channel source : String)
    (hpm : pm ≠ []) :
    (∀ v ∈ active, SchedulerEvent.forceSilenceSynth v (clock 0) ∈
      playChordTrace clock active baseFrequency pm tuning channel source) ∧
    (∀ k < tuning.length,
      SchedulerEvent.startSynth k (baseFrequency * tuning.getD k 0) (clock 1) ∈
        playChordTrace clock active baseFrequency pm tuning channel source) ∧
    (∀ k f t, SchedulerEvent.startSynth k f t ∈
        playChordTrace clock active baseFrequency pm tuning channel source →
      t = clock 1) ∧
    (∃ l1 l2,
      playChordTrace clock active baseFrequency pm tuning channel source =
        l1 ++ l2 ∧
      (∀ k f t, SchedulerEvent.startSynth k f t ∉ l1) ∧
      (∀ v now, SchedulerEvent.forceSilenceSynth v now ∉ l2)) := by
  have hlen : ¬pm.length = 0 := by simpa using hpm
  refine ⟨?_, ?_, ?_, ?_⟩
  · intro v hv
    simp only [playChordTrace, if_neg hlen, stopAllTrace, List.mem_cons,
      List.mem_append, List.mem_map]
    exact Or.inr (Or.inl ⟨v, hv, rfl⟩)
  · intro k hk
    simp only [playChordTrace, if_neg hlen, List.mem_cons, List.mem_append,
      List.mem_flatMap, List.mem_range]
    refine Or.inr (Or.inr ⟨k, hk, ?_⟩)
    simp
  · intro k f t hmem
    simp only [playChordTrace, if_neg hlen, stopAllTrace, List.mem_cons,
      List.mem_append, List.mem_map, List.mem_flatMap, List.mem_range] at hmem
    rcases hmem with h | h | h
    · exact absurd h (by simp)
    · obtain ⟨v, _, h⟩ := h
      exact absurd h (by simp)
    · obtain ⟨a, _, h⟩ := h
      simp only [List.mem_cons, List.not_mem_nil, or_false] at h
      rcases h with h | h | h
      · exact absurd h (by simp)
      · exact (SchedulerEvent.startSynth.injEq _ _ _ _ _ _).mp h |>.2.2
      · exact absurd h (by simp)
  · refine ⟨SchedulerEvent.broadcastStopOthers channel source ::
        stopAllTrace (clock 0) active,
      (List.range tuning.length).flatMap (fun k =>
        [SchedulerEvent.connectSynth k,
         SchedulerEvent.startSynth k (baseFrequency * tuning.getD k 0) (clock 1),
         SchedulerEvent.scheduleCleanup k]), ?_, ?_, ?_⟩
    · simp only [playChordTrace, if_neg hlen, List.cons_append]
    · intro k f t
      simp only [stopAllTrace, List.mem_cons, List.mem_map]
      rintro (h | ⟨v, _, h⟩) <;> exact absurd h (by simp)
    · intro v now
      simp only [List.mem_flatMap, List.mem_range]
      rintro ⟨a, _, h⟩
      simp only [List.mem_cons, List.not_mem_nil, or_false] at h
      rcases h with h | h | h <;> exact absurd h (by simp)

/-- Witness for `playChord_order_single_timestamp`: a concrete play request
over one active synth and a single-note tuning. -/
theorem playChord_order_single_timestamp_witness :
    ([(1 : ℚ)] ≠ ([] : List ℚ)) ∧
    SchedulerEvent.startSynth 0 440 1 ∈
      playChordTrace (fun n : ℕ => (n : ℚ)) [7] 440 [1] [1]
        audioChannel audioTag := by
  refine ⟨by simp, ?_⟩
  have h := (playChord_order_single_timestamp (fun n : ℕ => (n : ℚ)) [7] 440
    [1] [1] audioChannel audioTag (by simp)).2.1 0 (by norm_num)
  simpa using h

/-! ## Claim C6 — local-minima extraction -/

open TriadExplorerPage

/-- The neighbor scan returns `true` exactly when no neighbor is strictly
lower. -/
theorem isMinimumAt_iff (surface : TriadSurface) (i j : ℕ) :
    isMinimumAt surface i j = true ↔
      ∀ q ∈ neighborOffsets,
        ¬(cellValue surface (i - 1 + q.1) (j - 1 + q.2) < cellValue surface i j) := by
  simp [isMinimumAt]

/-- Membership in the interior scan equals the claim's qualification
predicate (in particular, only interior cells can appear). -/
theorem interiorMinima_iff (surface : TriadSurface) (θ : ℝ) (m : TriadMinimum) :
    m ∈ interiorMinimaList surface θ ↔
      ∃ i j, QualifiesAsMinimum surface θ i j ∧
        m = ⟨surface.ratios.getD i 0, surface.ratios.getD j 0,
          cellValue surface i j⟩ := by
  unfold interiorMinimaList
  rw [List.mem_flatMap]
  constructor
  · rintro ⟨i, hi, hm⟩
    rw [List.mem_range'_1] at hi
    rw [List.mem_filterMap] at hm
    obtain ⟨j, hj, hsome⟩ := hm
    rw [List.mem_range'_1] at hj
    by_cases hθ : cellValue surface i j > θ
    · rw [if_pos hθ] at hsome
      exact absurd hsome (by simp)
    · rw [if_neg hθ] at hsome
      by_cases hmin : isMinimumAt surface i j
      · rw [if_pos hmin] at hsome
        refine ⟨i, j, ⟨by omega, by omega, by omega, by omega,
          not_lt.mp hθ, (isMinimumAt_iff surface i j).mp hmin⟩, ?_⟩
        exact (Option.some_inj.mp hsome).symm
      · rw [if_neg hmin] at hsome
        exact absurd hsome (by simp)
  · rintro ⟨i, j, ⟨hi0, hi1, hj0, hj1, hθ, hnb⟩, hm⟩
    refine ⟨i, List.mem_range'_1.mpr (by omega), ?_⟩
    rw [List.mem_filterMap]
    refine ⟨j, List.mem_range'_1.mpr (by omega), ?_⟩
    rw [if_neg (not_lt.mpr hθ), if_pos ((isMinimumAt_iff surface i j).mpr hnb), hm]

/-- The interior scan never produces more entries than interior cells. -/
theorem interiorMinimaList_length_le (surface : TriadSurface) (θ : ℝ) :
    (interiorMinimaList surface θ).length ≤
      (surface.values.length - 2) * ((surface.values.getD 0 []).length - 2) := by
  unfold interiorMinimaList
  rw [List.length_flatMap]
  calc ((List.range' 1 (surface.values.length - 2)).map (fun i =>
          ((List.range' 1 ((surface.values.getD 0 []).length - 2)).filterMap _).length)).sum
      ≤ ((List.range' 1 (surface.values.length - 2)).map (fun _ =>
          (surface.values.getD 0 []).length - 2)).sum := by
        apply List.sum_le_sum
        intro a _
        calc _ ≤ (List.range' 1 ((surface.values.getD 0 []).length - 2)).length :=
              List.length_filterMap_le _ _
          _ = (surface.values.getD 0 []).length - 2 := List.length_range' ..
    _ = (surface.values.length - 2) * ((surface.values.getD 0 []).length - 2) := by
        rw [List.map_const', List.sum_replicate, smul_eq_mul, List.length_range']

/-- Claim C6: `extractConsonantMinima` returns only interior cells whose
value is at or below the threshold and not above any of the 8 neighbors,
sorted ascending by value and truncated to at most `limit` entries; and —
whenever the truncation does not bite — every qualifying interior cell is
returned. -/
theorem extractConsonantMinima_spec (surface : TriadSurface) (θ : ℝ)
    (limit : ℕ) :
    (extractConsonantMinima surface θ limit).length ≤ limit ∧
    List.Sorted (fun a b : TriadMinimum => a.value ≤ b.value)
      (extractConsonantMinima surface θ limit) ∧
    (∀ m ∈ extractConsonantMinima surface θ limit, ∃ i j,
      QualifiesAsMinimum surface θ i j ∧
      m = ⟨surface.ratios.getD i 0, surface.ratios.getD j 0,
        cellValue surface i j⟩) ∧
    ((interiorMinimaList surface θ).length ≤ limit →
      ∀ i j, QualifiesAsMinimum surface θ i j →
        (⟨surface.ratios.getD i 0, surface.ratios.getD j 0,
          cellValue surface i j⟩ : TriadMinimum) ∈
          extractConsonantMinima surface θ limit) := by
  refine ⟨List.length_take_le _ _, ?_, ?_, ?_⟩
  · have hs : ((interiorMinimaList surface θ).mergeSort
        (fun a b => decide (a.value ≤ b.value))).Pairwise
        (fun a b => decide (a.value ≤ b.value) = true) :=
      List.sorted_mergeSort
        (fun a b c hab hbc => by
          simp only [decide_eq_true_eq] at *
          exact le_trans hab hbc)
        (fun a b => by simpa using le_total a.value b.value) _
    have hp : (extractConsonantMinima surface θ limit).Pairwise
        (fun a b => decide (a.value ≤ b.value) = true) := by
      unfold extractConsonantMinima
      exact hs.sublist (List.take_sublist _ _)
    exact hp.imp (fun h => by simpa using h)
  · intro m hm
    have h1 : m ∈ (interiorMinimaList surface θ).mergeSort
        (fun a b => decide (a.value ≤ b.value)) :=
      List.mem_of_mem_take hm
    exact (interiorMinima_iff surface θ m).mp (List.mem_mergeSort.mp h1)
  · intro hlen i j hq
    unfold extractConsonantMinima
    rw [List.take_of_length_le (by rwa [List.length_mergeSort])]
    exact List.mem_mergeSort.mpr
      ((interiorMinima_iff surface θ _).mpr ⟨i, j, hq, rfl⟩)

/-- Witness for `extractConsonantMinima_spec` on the concrete 3×3 surface:
the center cell qualifies and is returned. -/
theorem extractConsonantMinima_spec_witness :
    (interiorMinimaList sampleSurface (1 / 2)).length ≤ 5 ∧
    (⟨20, 20, 0⟩ : TriadMinimum) ∈
      extractConsonantMinima sampleSurface (1 / 2) 5 := by
  have hlen : (interiorMinimaList sampleSurface (1 / 2)).length ≤ 5 :=
    le_trans (interiorMinimaList_length_le _ _) (by norm_num [sampleSurface])
  have hq : QualifiesAsMinimum sampleSurface (1 / 2) 1 1 := by
    norm_num [QualifiesAsMinimum, neighborOffsets, cellValue, sampleSurface]
  have hmem := (extractConsonantMinima_spec sampleSurface (1 / 2) 5).2.2.2
    hlen 1 1 hq
  have hval : (⟨sampleSurface.ratios.getD 1 0, sampleSurface.ratios.getD 1 0,
      cellValue sampleSurface 1 1⟩ : TriadMinimum) = ⟨20, 20, 0⟩ := by
    norm_num [sampleSurface, cellValue]
  exact ⟨hlen, hval ▸ hmem⟩

end PhysicsOfDissonance
